import Mathlib

/-!
Verification of the account hierarchy store of `account_manager.py`
(`personal-bookkeeping-mcp`).

The store is embedded shallowly:
* the pandas DataFrame `self._df` becomes a `List Account` in row order
  (the constructor always creates the frame with all required and optional
  columns, so the `'account_key' not in self._df.columns` guards in the
  source are always false and the row list is the whole state);
* `random.choices(string.ascii_uppercase, k=5)` becomes five indexed draws
  from an oracle `r : Nat → Nat`, each reduced mod 26 and used as an index
  into `ascii_uppercase`, exactly the uniform choice the source makes;
* the unbounded retry loop of `_generate_account_key` gets explicit fuel:
  `none` models the (probability-zero) event that the loop has not yet
  returned, every `some` is a value the Python loop can actually return;
* raising `ValueError` becomes `Except.error`; the two raise sites of
  `create_account` are distinguished as `InvalidType` / `UnknownParent`;
* methods that can reassign `self._df` return the new store; query methods
  additionally get `_st` variants returning `(store, result)` so that their
  frame behaviour is a statement rather than a convention.
-/

/-- One row of the account table: the eight required columns of
`AccountManager.REQUIRED_COLUMNS` plus the six optional columns, which are
absent (`none`) unless supplied at creation. -/
structure Account where
  account_key : String
  parent_key : String
  type : String
  name : String
  full_name : String
  account_number : String
  currency : String
  hidden : Bool
  description : Option String
  color : Option String
  notes : Option String
  «namespace» : Option String
  tax_relevant : Option String
  placeholder : Option String
deriving DecidableEq, Repr

/-- The `**optional_fields` keyword dictionary restricted to
`AccountManager.OPTIONAL_COLUMNS`; fields not supplied are `none`.
(Keyword entries outside the six recognized columns are dropped by the
source's copy loop, so they never reach a row and are not modelled.) -/
structure OptionalFields where
  description : Option String := none
  color : Option String := none
  notes : Option String := none
  «namespace» : Option String := none
  tax_relevant : Option String := none
  placeholder : Option String := none
deriving DecidableEq, Repr

/-- `string.ascii_uppercase`, the population `random.choices` draws from. -/
def ascii_uppercase : String := "ABCDEFGHIJKLMNOPQRSTUVWXYZ"

/-- The value strings of the `AccountType` enum, in declaration order
(`AccountType.get_all_values`). -/
def AccountType.get_all_values : List String :=
  ["ASSET", "LIABILITY", "EQUITY", "INCOME", "EXPENSE", "CASH", "BANK", "CREDIT"]

/-- `AccountType.is_valid`: membership of the string in
`_value2member_map_`, i.e. among the eight enum values. -/
def AccountType.is_valid (value : String) : Bool :=
  value ∈ AccountType.get_all_values

/-- The two `raise ValueError` sites of `create_account`, named as in the
spec (§4.1). -/
inductive CreateError where
  | InvalidType
  | UnknownParent
deriving DecidableEq, Repr

/-- The column `self._df['account_key']` as a list, in row order. -/
def store_keys (s : List Account) : List String :=
  s.map (fun a => a.account_key)

/-- One candidate of `_generate_account_key`'s loop: attempt `n` consumes
oracle draws `5*n, …, 5*n+4`; each draw indexes `ascii_uppercase` (mod 26,
since `random.choices` returns uniformly chosen elements of the
26-character population). -/
def attempt_key (r : Nat → Nat) (n : Nat) : String :=
  String.mk ((List.range 5).map (fun i => ascii_uppercase.data.getD (r (5 * n + i) % 26) 'A'))

/-- The retry loop of `_generate_account_key`: keep drawing candidates
until one is not among the stored keys.  `fuel` bounds how many attempts
we unfold; `none` means the loop has not returned within `fuel` attempts. -/
def generate_account_key_aux (r : Nat → Nat) (keys : List String) : Nat → Nat → Option String
  | 0, _ => none
  | fuel + 1, n =>
    let key := attempt_key r n
    if key ∈ keys then generate_account_key_aux r keys fuel (n + 1) else some key

/-- `AccountManager._generate_account_key` (the `'account_key' not in
columns` escape is dead code: the constructor always creates the column). -/
def generate_account_key (fuel : Nat) (r : Nat → Nat) (s : List Account) : Option String :=
  generate_account_key_aux r (store_keys s) fuel 0

/-- The `new_account` dict built by `create_account`, with the recognized
optional fields copied in. -/
def mk_new_account (account_type name full_name parent_key account_number currency : String)
    (hidden : Bool) (account_key : String) (opt : OptionalFields) : Account :=
  { account_key := account_key
    parent_key := parent_key
    type := account_type
    name := name
    full_name := full_name
    account_number := account_number
    currency := currency
    hidden := hidden
    description := opt.description
    color := opt.color
    notes := opt.notes
    «namespace» := opt.«namespace»
    tax_relevant := opt.tax_relevant
    placeholder := opt.placeholder }

/-- `AccountManager.create_account`.  Checks the type, then the parent
(`if parent_key:` is Python truthiness, i.e. `parent_key ≠ ""`; the
`'account_key' in self._df.columns` conjunct is always true), then
generates a key and appends one row (`pd.concat` with `ignore_index`).
The result pairs the new `self._df` with the returned key or the raised
error; on a raise the concat is never reached, so the store is returned
unchanged.  `none` only when the key-generation loop runs out of fuel. -/
def create_account (fuel : Nat) (r : Nat → Nat) (s : List Account)
    (account_type name full_name parent_key account_number currency : String)
    (hidden : Bool) (opt : OptionalFields) :
    Option (List Account × Except CreateError String) :=
  if AccountType.is_valid account_type = false then
    some (s, Except.error CreateError.InvalidType)
  else if parent_key ≠ "" ∧ parent_key ∉ store_keys s then
    some (s, Except.error CreateError.UnknownParent)
  else
    match generate_account_key fuel r s with
    | none => none
    | some account_key =>
      some (s ++ [mk_new_account account_type name full_name parent_key account_number
                    currency hidden account_key opt],
            Except.ok account_key)

/-- `AccountManager.get_account_by_key`: first row whose `account_key`
equals the argument (`result.iloc[0]`), or `None`. -/
def get_account_by_key (s : List Account) (account_key : String) : Option Account :=
  s.find? (fun a => a.account_key == account_key)

/-- `AccountManager.get_children`: all rows whose `parent_key` equals the
argument, in row order. -/
def get_children (s : List Account) (parent_key : String) : List Account :=
  s.filter (fun a => a.parent_key == parent_key)

/-- `AccountManager.get_root_accounts`: all rows with empty `parent_key`. -/
def get_root_accounts (s : List Account) : List Account :=
  s.filter (fun a => a.parent_key == "")

/-- The `while current_key and depth < max_depth` loop of
`get_account_path`: `fuel` is `max_depth - depth`, `path` the list built
so far (`path.insert(0, current_key)` prepends). -/
def get_account_path_aux (s : List Account) : Nat → String → List String → List String
  | 0, _, path => path
  | fuel + 1, current_key, path =>
    if current_key = "" then path
    else
      match get_account_by_key s current_key with
      | none => path
      | some account => get_account_path_aux s fuel account.parent_key (current_key :: path)

/-- `AccountManager.get_account_path` with its `max_depth = 100` guard. -/
def get_account_path (s : List Account) (account_key : String) : List String :=
  get_account_path_aux s 100 account_key []

/-- `AccountManager.get_all_accounts` (a copy of the frame: in the pure
model, the row list itself). -/
def get_all_accounts (s : List Account) : List Account := s

/-- State-passing form of `get_account_by_key`: the method body never
assigns `self._df`, so the store component is returned as it was read. -/
def get_account_by_key_st (s : List Account) (account_key : String) :
    List Account × Option Account :=
  (s, get_account_by_key s account_key)

/-- State-passing form of `get_children` (no assignment to `self._df`). -/
def get_children_st (s : List Account) (parent_key : String) :
    List Account × List Account :=
  (s, get_children s parent_key)

/-- State-passing form of `get_root_accounts` (no assignment to `self._df`). -/
def get_root_accounts_st (s : List Account) : List Account × List Account :=
  (s, get_root_accounts s)

/-- State-passing form of `get_account_path` (no assignment to `self._df`). -/
def get_account_path_st (s : List Account) (account_key : String) :
    List Account × List String :=
  (s, get_account_path s account_key)

/-- State-passing form of `get_all_accounts` (no assignment to `self._df`). -/
def get_all_accounts_st (s : List Account) : List Account × List Account :=
  (s, get_all_accounts s)

/-- Iterated parent lookup: `parent_chain s n a` follows `parent_key`
links `n` times starting from the row `a`, using the store's own lookup. -/
def parent_chain (s : List Account) : Nat → Account → Option Account
  | 0, a => some a
  | n + 1, a =>
    match get_account_by_key s a.parent_key with
    | none => none
    | some b => parent_chain s n b

/-- The store states reachable from the constructor's empty frame by
(successful) `create_account` calls: the only mutating operation the
source defines. -/
inductive Reachable : List Account → Prop
  | nil : Reachable []
  | create (fuel : Nat) (r : Nat → Nat) (s : List Account)
      (account_type name full_name parent_key account_number currency : String)
      (hidden : Bool) (opt : OptionalFields) (s' : List Account) (k : String) :
      Reachable s →
      create_account fuel r s account_type name full_name parent_key account_number
        currency hidden opt = some (s', Except.ok k) →
      Reachable s'

/-! ### Key generation -/

lemma attempt_key_length (r : Nat → Nat) (n : Nat) : (attempt_key r n).length = 5 := by
  have h : (attempt_key r n).length =
      ((List.range 5).map (fun i => ascii_uppercase.data.getD (r (5 * n + i) % 26) 'A')).length :=
    rfl
  rw [h, List.length_map, List.length_range]

lemma attempt_key_chars (r : Nat → Nat) (n : Nat) :
    ∀ c ∈ (attempt_key r n).data, c ∈ ascii_uppercase.data := by
  intro c hc
  have hdata : (attempt_key r n).data =
      (List.range 5).map (fun i => ascii_uppercase.data.getD (r (5 * n + i) % 26) 'A') := rfl
  rw [hdata] at hc
  rcases List.mem_map.1 hc with ⟨i, _, rfl⟩
  have hlt : r (5 * n + i) % 26 < ascii_uppercase.data.length := by
    have h26 : ascii_uppercase.data.length = 26 := rfl
    rw [h26]
    exact Nat.mod_lt _ (by omega)
  rw [List.getD_eq_getElem _ _ hlt]
  exact List.getElem_mem hlt

lemma generate_account_key_aux_spec (r : Nat → Nat) (keys : List String) :
    ∀ fuel n k, generate_account_key_aux r keys fuel n = some k →
      k.length = 5 ∧ (∀ c ∈ k.data, c ∈ ascii_uppercase.data) ∧ k ∉ keys := by
  intro fuel
  induction fuel with
  | zero => intro n k h; simp [generate_account_key_aux] at h
  | succ fuel ih =>
    intro n k h
    simp only [generate_account_key_aux] at h
    by_cases hmem : attempt_key r n ∈ keys
    · rw [if_pos hmem] at h
      exact ih (n + 1) k h
    · rw [if_neg hmem] at h
      cases h
      exact ⟨attempt_key_length r n, attempt_key_chars r n, hmem⟩

lemma generate_account_key_spec {fuel : Nat} {r : Nat → Nat} {s : List Account} {k : String}
    (h : generate_account_key fuel r s = some k) :
    k.length = 5 ∧ (∀ c ∈ k.data, c ∈ ascii_uppercase.data) ∧ k ∉ store_keys s :=
  generate_account_key_aux_spec r (store_keys s) fuel 0 k h

/-! ### Case analysis of `create_account` -/

lemma create_account_ok_cases {fuel : Nat} {r : Nat → Nat} {s : List Account}
    {t n f p an cur : String} {hid : Bool} {opt : OptionalFields}
    {s' : List Account} {k : String}
    (h : create_account fuel r s t n f p an cur hid opt = some (s', Except.ok k)) :
    AccountType.is_valid t = true ∧ (p = "" ∨ p ∈ store_keys s) ∧
    generate_account_key fuel r s = some k ∧
    s' = s ++ [mk_new_account t n f p an cur hid k opt] := by
  by_cases h1 : AccountType.is_valid t = false
  · rw [create_account, if_pos h1] at h
    simp at h
  · by_cases h2 : p ≠ "" ∧ p ∉ store_keys s
    · rw [create_account, if_neg h1, if_pos h2] at h
      simp at h
    · rw [create_account, if_neg h1, if_neg h2] at h
      have hv : AccountType.is_valid t = true := by
        cases hb : AccountType.is_valid t
        · exact absurd hb h1
        · rfl
      have hp : p = "" ∨ p ∈ store_keys s := by
        by_cases hp0 : p = ""
        · exact Or.inl hp0
        · push_neg at h2
          exact Or.inr (h2 hp0)
      cases hg : generate_account_key fuel r s with
      | none => rw [hg] at h; simp at h
      | some k0 =>
        rw [hg] at h
        simp only [Option.some.injEq, Prod.mk.injEq, Except.ok.injEq] at h
        obtain ⟨hs', hk⟩ := h
        subst hk
        exact ⟨hv, hp, rfl, hs'.symm⟩

lemma create_account_invalid {fuel : Nat} {r : Nat → Nat} {s : List Account}
    {t n f p an cur : String} {hid : Bool} {opt : OptionalFields}
    (h1 : AccountType.is_valid t = false) :
    create_account fuel r s t n f p an cur hid opt =
      some (s, Except.error CreateError.InvalidType) := by
  rw [create_account, if_pos h1]

lemma create_account_error_invalid_elim {fuel : Nat} {r : Nat → Nat} {s : List Account}
    {t n f p an cur : String} {hid : Bool} {opt : OptionalFields} {s' : List Account}
    (h : create_account fuel r s t n f p an cur hid opt =
      some (s', Except.error CreateError.InvalidType)) :
    AccountType.is_valid t = false := by
  by_cases h1 : AccountType.is_valid t = false
  · exact h1
  · exfalso
    rw [create_account, if_neg h1] at h
    by_cases h2 : p ≠ "" ∧ p ∉ store_keys s
    · rw [if_pos h2] at h
      simp at h
    · rw [if_neg h2] at h
      cases hg : generate_account_key fuel r s <;> rw [hg] at h <;> simp at h

lemma create_account_unknown_parent {fuel : Nat} {r : Nat → Nat} {s : List Account}
    {t n f p an cur : String} {hid : Bool} {opt : OptionalFields}
    (h1 : AccountType.is_valid t = true) (h2 : p ≠ "" ∧ p ∉ store_keys s) :
    create_account fuel r s t n f p an cur hid opt =
      some (s, Except.error CreateError.UnknownParent) := by
  rw [create_account, if_neg (by simp [h1]), if_pos h2]

lemma create_account_error_parent_elim {fuel : Nat} {r : Nat → Nat} {s : List Account}
    {t n f p an cur : String} {hid : Bool} {opt : OptionalFields} {s' : List Account}
    (h : create_account fuel r s t n f p an cur hid opt =
      some (s', Except.error CreateError.UnknownParent)) :
    p ≠ "" ∧ p ∉ store_keys s := by
  by_cases h1 : AccountType.is_valid t = false
  · rw [create_account, if_pos h1] at h
    simp at h
  · by_cases h2 : p ≠ "" ∧ p ∉ store_keys s
    · exact h2
    · exfalso
      rw [create_account, if_neg h1, if_neg h2] at h
      cases hg : generate_account_key fuel r s <;> rw [hg] at h <;> simp at h

/-- One unfolding step of the path walk. -/
lemma get_account_path_aux_succ (s : List Account) (fuel : Nat) (ck : String)
    (path : List String) :
    get_account_path_aux s (fuel + 1) ck path =
      if ck = "" then path
      else
        match get_account_by_key s ck with
        | none => path
        | some account => get_account_path_aux s fuel account.parent_key (ck :: path) := rfl

/-! ### Concrete fixtures used by the witnesses -/

/-- The account created by `create_account 1 (fun _ => 0) [] "ASSET" "Cash" …`
(the oracle that always draws index 0 yields the key `"AAAAA"`). -/
def acctA : Account := mk_new_account "ASSET" "Cash" "Assets:Cash" "" "" "EUR" false "AAAAA" {}

/-- Child of `acctA`, created with the oracle that always draws index 1. -/
def acctB : Account :=
  mk_new_account "BANK" "Checking" "Assets:Cash:Checking" "AAAAA" "" "EUR" false "BBBBB" {}

/-- Child of `acctB`, created with the oracle that always draws index 2. -/
def acctC : Account :=
  mk_new_account "EXPENSE" "Fees" "Assets:Cash:Checking:Fees" "BBBBB" "" "EUR" false "CCCCC" {}

/-- A store whose single row is its own parent: not reachable by the store's
operations, but a state `get_account_path` must survive. -/
def cyc_account : Account := mk_new_account "ASSET" "Loop" "Loop" "AAAAA" "" "EUR" false "AAAAA" {}

/-! ### Claims -/

/-- C1: for every valid creation (recognized type, existing-or-empty
parent key) that returns, the returned key is exactly 5 characters, all
drawn from `ascii_uppercase`, the key differs from every `account_key`
already in the store, and the call appends exactly one record. -/
theorem c1_create_fresh_key (fuel : Nat) (r : Nat → Nat) (s : List Account)
    (t n f p an cur : String) (hid : Bool) (opt : OptionalFields)
    (s' : List Account) (k : String)
    (_hvalid : t ∈ AccountType.get_all_values)
    (_hparent : p = "" ∨ p ∈ store_keys s)
    (h : create_account fuel r s t n f p an cur hid opt = some (s', Except.ok k)) :
    k.length = 5 ∧ (∀ c ∈ k.data, c ∈ ascii_uppercase.data) ∧
    k ∉ store_keys s ∧ s' = s ++ [mk_new_account t n f p an cur hid k opt] := by
  obtain ⟨-, -, hg, hs'⟩ := create_account_ok_cases h
  obtain ⟨h5, hchars, hfresh⟩ := generate_account_key_spec hg
  exact ⟨h5, hchars, hfresh, hs'⟩

/-- C1 witness: the creation of `acctA` on the empty store. -/
theorem c1_witness :
    ("AAAAA" : String).length = 5 ∧
    (∀ c ∈ ("AAAAA" : String).data, c ∈ ascii_uppercase.data) ∧
    "AAAAA" ∉ store_keys [] ∧
    ([acctA] : List Account) =
      [] ++ [mk_new_account "ASSET" "Cash" "Assets:Cash" "" "" "EUR" false "AAAAA" {}] :=
  c1_create_fresh_key 1 (fun _ => 0) [] "ASSET" "Cash" "Assets:Cash" "" "" "EUR" false {}
    [acctA] "AAAAA" (by decide) (Or.inl rfl) rfl

/-- C2: `create_account` fails with `InvalidType` exactly when the type
string is not one of the eight `AccountType` values, and this failure
leaves the store unchanged. -/
theorem c2_invalid_type (fuel : Nat) (r : Nat → Nat) (s : List Account)
    (t n f p an cur : String) (hid : Bool) (opt : OptionalFields) :
    ((∃ s', create_account fuel r s t n f p an cur hid opt =
        some (s', Except.error CreateError.InvalidType)) ↔
      t ∉ AccountType.get_all_values) ∧
    (t ∉ AccountType.get_all_values →
      create_account fuel r s t n f p an cur hid opt =
        some (s, Except.error CreateError.InvalidType)) := by
  have hiff : AccountType.is_valid t = false ↔ t ∉ AccountType.get_all_values := by
    simp [AccountType.is_valid]
  refine ⟨⟨?_, ?_⟩, ?_⟩
  · rintro ⟨s', hs'⟩
    exact hiff.1 (create_account_error_invalid_elim hs')
  · intro ht
    exact ⟨s, create_account_invalid (hiff.2 ht)⟩
  · intro ht
    exact create_account_invalid (hiff.2 ht)

/-- C2 witness: creating with type `"BOGUS"` on the empty store. -/
theorem c2_witness :
    create_account 1 (fun _ => 0) [] "BOGUS" "x" "x" "" "" "EUR" false {} =
      some ([], Except.error CreateError.InvalidType) :=
  (c2_invalid_type 1 (fun _ => 0) [] "BOGUS" "x" "x" "" "" "EUR" false {}).2 (by decide)

/-- C3: with a recognized type, `create_account` fails with
`UnknownParent` exactly when `parent_key` is non-empty and matches no
stored `account_key`, and this failure leaves the store unchanged. -/
theorem c3_unknown_parent (fuel : Nat) (r : Nat → Nat) (s : List Account)
    (t n f p an cur : String) (hid : Bool) (opt : OptionalFields)
    (hvalid : t ∈ AccountType.get_all_values) :
    ((∃ s', create_account fuel r s t n f p an cur hid opt =
        some (s', Except.error CreateError.UnknownParent)) ↔
      (p ≠ "" ∧ p ∉ store_keys s)) ∧
    (p ≠ "" ∧ p ∉ store_keys s →
      create_account fuel r s t n f p an cur hid opt =
        some (s, Except.error CreateError.UnknownParent)) := by
  have hv : AccountType.is_valid t = true := by
    simp only [AccountType.is_valid, decide_eq_true_eq]
    exact hvalid
  refine ⟨⟨?_, ?_⟩, ?_⟩
  · rintro ⟨s', hs'⟩
    exact create_account_error_parent_elim hs'
  · intro h2
    exact ⟨s, create_account_unknown_parent hv h2⟩
  · intro h2
    exact create_account_unknown_parent hv h2

/-- C3 witness: creating with unknown parent `"ZZZZZ"` on the empty store. -/
theorem c3_witness :
    create_account 1 (fun _ => 0) [] "ASSET" "x" "x" "ZZZZZ" "" "EUR" false {} =
      some ([], Except.error CreateError.UnknownParent) :=
  (c3_unknown_parent 1 (fun _ => 0) [] "ASSET" "x" "x" "ZZZZZ" "" "EUR" false {}
    (by decide)).2 (by decide)

/-- C5: create/get round-trip — after a successful creation, looking the
returned key up yields a record whose fields are exactly the supplied
values. -/
theorem c5_create_get_roundtrip (fuel : Nat) (r : Nat → Nat) (s : List Account)
    (t n f p an cur : String) (hid : Bool) (opt : OptionalFields)
    (s' : List Account) (k : String)
    (h : create_account fuel r s t n f p an cur hid opt = some (s', Except.ok k)) :
    ∃ a, get_account_by_key s' k = some a ∧ a.type = t ∧ a.name = n ∧ a.full_name = f ∧
      a.parent_key = p ∧ a.account_number = an ∧ a.currency = cur ∧ a.hidden = hid ∧
      a.description = opt.description ∧ a.color = opt.color ∧ a.notes = opt.notes ∧
      a.«namespace» = opt.«namespace» ∧ a.tax_relevant = opt.tax_relevant ∧
      a.placeholder = opt.placeholder := by
  obtain ⟨-, -, hg, hs'⟩ := create_account_ok_cases h
  obtain ⟨-, -, hfresh⟩ := generate_account_key_spec hg
  subst hs'
  refine ⟨mk_new_account t n f p an cur hid k opt, ?_, rfl, rfl, rfl, rfl, rfl, rfl, rfl,
    rfl, rfl, rfl, rfl, rfl, rfl⟩
  rw [get_account_by_key, List.find?_append]
  have hnone : s.find? (fun a => a.account_key == k) = none := by
    rw [List.find?_eq_none]
    intro a ha hbeq
    refine hfresh ?_
    have hak : a.account_key = k := by simpa using hbeq
    rw [← hak]
    exact List.mem_map_of_mem _ ha
  rw [hnone, Option.none_or]
  exact List.find?_cons_of_pos _ (by simp [mk_new_account])

/-- C5 witness: the creation of `acctA` on the empty store, looked up again. -/
theorem c5_witness :
    ∃ a, get_account_by_key [acctA] "AAAAA" = some a ∧ a.type = "ASSET" ∧ a.name = "Cash" ∧
      a.full_name = "Assets:Cash" ∧ a.parent_key = "" ∧ a.account_number = "" ∧
      a.currency = "EUR" ∧ a.hidden = false ∧
      a.description = ({} : OptionalFields).description ∧
      a.color = ({} : OptionalFields).color ∧ a.notes = ({} : OptionalFields).notes ∧
      a.«namespace» = ({} : OptionalFields).«namespace» ∧
      a.tax_relevant = ({} : OptionalFields).tax_relevant ∧
      a.placeholder = ({} : OptionalFields).placeholder :=
  c5_create_get_roundtrip 1 (fun _ => 0) [] "ASSET" "Cash" "Assets:Cash" "" "" "EUR" false {}
    [acctA] "AAAAA" rfl

/-- C8: `get_children ""` and `get_root_accounts` filter by the same
predicate, so they agree on every store, in store order. -/
theorem c8_children_empty_eq_roots (s : List Account) :
    get_children s "" = get_root_accounts s := rfl

/-- C9: lookup misses are soft — an unmatched key yields `none` from
`get_account_by_key`, an unmatched parent key yields `[]` from
`get_children`; both operations are total functions of the store. -/
theorem c9_soft_lookup (s : List Account) (k pk : String) :
    ((∀ a ∈ s, a.account_key ≠ k) → get_account_by_key s k = none) ∧
    ((∀ a ∈ s, a.parent_key ≠ pk) → get_children s pk = []) := by
  constructor
  · intro hmiss
    rw [get_account_by_key, List.find?_eq_none]
    intro a ha hbeq
    exact hmiss a ha (by simpa using hbeq)
  · intro hmiss
    rw [get_children, List.filter_eq_nil_iff]
    intro a ha
    simpa using hmiss a ha

/-- C9 witness: misses on a one-account store. -/
theorem c9_witness :
    get_account_by_key [acctA] "ZZZZZ" = none ∧ get_children [acctA] "QQQQQ" = [] :=
  ⟨(c9_soft_lookup [acctA] "ZZZZZ" "QQQQQ").1 (by decide),
   (c9_soft_lookup [acctA] "ZZZZZ" "QQQQQ").2 (by decide)⟩

/-- C10: every query is read-only — the state-passing forms return the
store exactly as read — and `get_account_path` on an absent key returns
the empty path. -/
theorem c10_queries_readonly (s : List Account) (k pk : String) :
    (get_account_by_key_st s k).1 = s ∧ (get_children_st s pk).1 = s ∧
    (get_root_accounts_st s).1 = s ∧ (get_account_path_st s k).1 = s ∧
    (get_all_accounts_st s).1 = s ∧
    ((∀ a ∈ s, a.account_key ≠ k) → get_account_path s k = []) := by
  refine ⟨rfl, rfl, rfl, rfl, rfl, ?_⟩
  intro hmiss
  have hnone : get_account_by_key s k = none := by
    rw [get_account_by_key, List.find?_eq_none]
    intro a ha hbeq
    exact hmiss a ha (by simpa using hbeq)
  rw [get_account_path]
  have h100 : (100 : Nat) = 99 + 1 := rfl
  rw [h100, get_account_path_aux_succ]
  by_cases hk : k = ""
  · rw [if_pos hk]
  · rw [if_neg hk, hnone]

/-- C10 witness: queries on a one-account store with an absent key. -/
theorem c10_witness :
    (get_account_by_key_st [acctA] "ZZZZZ").1 = [acctA] ∧
    (get_children_st [acctA] "QQQQQ").1 = [acctA] ∧
    (get_root_accounts_st [acctA]).1 = [acctA] ∧
    (get_account_path_st [acctA] "ZZZZZ").1 = [acctA] ∧
    (get_all_accounts_st [acctA]).1 = [acctA] ∧
    get_account_path [acctA] "ZZZZZ" = [] := by
  have h := c10_queries_readonly [acctA] "ZZZZZ" "QQQQQ"
  exact ⟨h.1, h.2.1, h.2.2.1, h.2.2.2.1, h.2.2.2.2.1, h.2.2.2.2.2 (by decide)⟩

/-- C6: the path walk is root-first — a root account's path is just its
own key, and a stored 3-chain A→B→C yields `[A, B, C]`. -/
theorem c6_path_root_and_chain (s : List Account) :
    (∀ kA a, get_account_by_key s kA = some a → kA ≠ "" → a.parent_key = "" →
      get_account_path s kA = [kA]) ∧
    (∀ kA kB kC a b c, get_account_by_key s kC = some c → c.parent_key = kB →
      get_account_by_key s kB = some b → b.parent_key = kA →
      get_account_by_key s kA = some a → a.parent_key = "" →
      kA ≠ "" → kB ≠ "" → kC ≠ "" →
      get_account_path s kC = [kA, kB, kC]) := by
  constructor
  · intro kA a hlookup hkne hroot
    rw [get_account_path]
    have h100 : (100 : Nat) = 99 + 1 := rfl
    rw [h100, get_account_path_aux_succ, if_neg hkne, hlookup]
    show get_account_path_aux s 99 a.parent_key [kA] = [kA]
    rw [hroot]
    have h99 : (99 : Nat) = 98 + 1 := rfl
    rw [h99, get_account_path_aux_succ, if_pos rfl]
  · intro kA kB kC a b c hC hcp hB hbp hA hap hkA hkB hkC
    rw [get_account_path]
    have h100 : (100 : Nat) = 99 + 1 := rfl
    rw [h100, get_account_path_aux_succ, if_neg hkC, hC]
    show get_account_path_aux s 99 c.parent_key [kC] = [kA, kB, kC]
    rw [hcp]
    have h99 : (99 : Nat) = 98 + 1 := rfl
    rw [h99, get_account_path_aux_succ, if_neg hkB, hB]
    show get_account_path_aux s 98 b.parent_key [kB, kC] = [kA, kB, kC]
    rw [hbp]
    have h98 : (98 : Nat) = 97 + 1 := rfl
    rw [h98, get_account_path_aux_succ, if_neg hkA, hA]
    show get_account_path_aux s 97 a.parent_key [kA, kB, kC] = [kA, kB, kC]
    rw [hap]
    have h97 : (97 : Nat) = 96 + 1 := rfl
    rw [h97, get_account_path_aux_succ, if_pos rfl]

/-- C6 witness: a root and a depth-3 chain in the store `[acctA, acctB, acctC]`. -/
theorem c6_witness :
    get_account_path [acctA, acctB, acctC] "AAAAA" = ["AAAAA"] ∧
    get_account_path [acctA, acctB, acctC] "CCCCC" = ["AAAAA", "BBBBB", "CCCCC"] :=
  ⟨(c6_path_root_and_chain [acctA, acctB, acctC]).1 "AAAAA" acctA rfl (by decide) rfl,
   (c6_path_root_and_chain [acctA, acctB, acctC]).2 "AAAAA" "BBBBB" "CCCCC" acctA acctB acctC
     rfl rfl rfl rfl rfl rfl (by decide) (by decide) (by decide)⟩

lemma get_account_path_aux_length (s : List Account) :
    ∀ fuel ck path, (get_account_path_aux s fuel ck path).length ≤ fuel + path.length := by
  intro fuel
  induction fuel with
  | zero =>
    intro ck path
    show path.length ≤ 0 + path.length
    omega
  | succ fuel ih =>
    intro ck path
    rw [get_account_path_aux_succ]
    by_cases hck : ck = ""
    · rw [if_pos hck]; omega
    · rw [if_neg hck]
      cases h : get_account_by_key s ck with
      | none =>
        show path.length ≤ (fuel + 1) + path.length
        omega
      | some a =>
        show (get_account_path_aux s fuel a.parent_key (ck :: path)).length ≤
          (fuel + 1) + path.length
        have hih := ih a.parent_key (ck :: path)
        simp only [List.length_cons] at hih
        omega

set_option maxRecDepth 8000 in
/-- C7: the path walk is total and bounded — it returns at most 100 keys
on every store and every start key, and on a self-parenting (cyclic) row
it returns the 100-element partial path instead of failing. -/
theorem c7_path_terminates_bounded :
    (∀ s k, (get_account_path s k).length ≤ 100) ∧
    get_account_path [cyc_account] "AAAAA" = List.replicate 100 "AAAAA" := by
  constructor
  · intro s k
    have h := get_account_path_aux_length s 100 k []
    simpa using h
  · exact rfl

/-! ### The reachable-store invariant behind C4 -/

/-- Invariant maintained by `create_account`: keys are pairwise distinct
and non-empty, and every non-root row points at a strictly earlier row. -/
def good_store (s : List Account) : Prop :=
  (store_keys s).Nodup ∧
  (∀ a ∈ s, a.account_key ≠ "") ∧
  ∀ i, (hi : i < s.length) → (s[i].parent_key = "" ∨
    ∃ j, ∃ hj : j < s.length, j < i ∧ s[j].account_key = s[i].parent_key)

lemma good_store_append (s : List Account) (new : Account)
    (hgood : good_store s)
    (hkey : new.account_key ∉ store_keys s)
    (hne : new.account_key ≠ "")
    (hparent : new.parent_key = "" ∨ new.parent_key ∈ store_keys s) :
    good_store (s ++ [new]) := by
  refine ⟨?_, ?_, ?_⟩
  · have hkeys : store_keys (s ++ [new]) = store_keys s ++ [new.account_key] := by
      simp [store_keys]
    rw [hkeys, List.nodup_append]
    exact ⟨hgood.1, List.nodup_singleton _, by rw [List.disjoint_singleton]; exact hkey⟩
  · intro a ha
    rcases List.mem_append.1 ha with h | h
    · exact hgood.2.1 a h
    · rw [List.mem_singleton.1 h]
      exact hne
  · intro i hi
    have hlen : (s ++ [new]).length = s.length + 1 := by simp
    by_cases hilt : i < s.length
    · have hgi : (s ++ [new])[i] = s[i] := List.getElem_append_left hilt
      rcases hgood.2.2 i hilt with hroot | ⟨j, hj, hji, hk⟩
      · left; rw [hgi]; exact hroot
      · right
        have hjlt : j < (s ++ [new]).length := by rw [hlen]; omega
        refine ⟨j, hjlt, hji, ?_⟩
        have hgj : (s ++ [new])[j] = s[j] := List.getElem_append_left hj
        rw [hgi, hgj]
        exact hk
    · have hieq : i = s.length := by rw [hlen] at hi; omega
      have hgi : (s ++ [new])[i] = new := List.getElem_concat_length s new i hieq hi
      rcases hparent with hroot | hmem
      · left; rw [hgi]; exact hroot
      · right
        rw [store_keys] at hmem
        rcases List.mem_map.1 hmem with ⟨b, hb, hbk⟩
        rcases List.mem_iff_getElem.1 hb with ⟨j, hj, hbj⟩
        have hjlt : j < (s ++ [new]).length := by rw [hlen]; omega
        refine ⟨j, hjlt, by omega, ?_⟩
        have hgj : (s ++ [new])[j] = s[j] := List.getElem_append_left hj
        rw [hgj, hgi, hbj]
        exact hbk

lemma reachable_good (s : List Account) (h : Reachable s) : good_store s := by
  induction h with
  | nil =>
    refine ⟨?_, ?_, ?_⟩
    · simp [store_keys]
    · intro a ha; simp at ha
    · intro i hi; simp at hi
  | create fuel r s t n f p an cur hid opt s' k hrs hcreate ih =>
    obtain ⟨hv, hp, hg, hs'⟩ := create_account_ok_cases hcreate
    obtain ⟨h5, hchars, hfresh⟩ := generate_account_key_spec hg
    subst hs'
    refine good_store_append s _ ih ?_ ?_ ?_
    · exact hfresh
    · intro h0
      have h0' : k = "" := h0
      rw [h0'] at h5
      exact absurd h5 (by decide)
    · exact hp

/-- With pairwise-distinct keys, looking a stored row up by its own key
returns that row. -/
lemma get_account_by_key_getElem (s : List Account) (hnd : (store_keys s).Nodup) :
    ∀ j, (hj : j < s.length) → get_account_by_key s (s[j].account_key) = some s[j] := by
  induction s with
  | nil => intro j hj; simp at hj
  | cons x tl ih =>
    intro j hj
    have hndx : x.account_key ∉ store_keys tl ∧ (store_keys tl).Nodup := by
      have hck : store_keys (x :: tl) = x.account_key :: store_keys tl := rfl
      rw [hck] at hnd
      exact List.nodup_cons.1 hnd
    cases j with
    | zero =>
      have h0 : (x :: tl)[0] = x := rfl
      rw [h0, get_account_by_key]
      exact List.find?_cons_of_pos _ (by simp)
    | succ j' =>
      have hj' : j' < tl.length := by simpa using hj
      have hsucc : (x :: tl)[j' + 1] = tl[j'] := List.getElem_cons_succ x tl j' hj
      rw [hsucc, get_account_by_key]
      have hne : (x.account_key == tl[j'].account_key) = false := by
        rw [beq_eq_false_iff_ne]
        intro hcontra
        refine hndx.1 ?_
        rw [hcontra]
        exact List.mem_map_of_mem _ (List.getElem_mem hj')
      rw [List.find?_cons_of_neg _ (by simp [hne])]
      exact ih hndx.2 j' hj'

/-- One unfolding step of the parent chain. -/
lemma parent_chain_succ (s : List Account) (m : Nat) (a : Account) :
    parent_chain s (m + 1) a =
      match get_account_by_key s a.parent_key with
      | none => none
      | some b => parent_chain s m b := rfl

lemma good_store_chain (s : List Account) (hgood : good_store s) :
    ∀ i, (hi : i < s.length) →
      ∃ m, m ≤ i ∧ ∃ b, parent_chain s m s[i] = some b ∧ b.parent_key = "" := by
  intro i
  induction i using Nat.strong_induction_on with
  | _ i ihs =>
    intro hi
    rcases hgood.2.2 i hi with hroot | ⟨j, hj, hji, hkey⟩
    · exact ⟨0, Nat.zero_le _, s[i], rfl, hroot⟩
    · obtain ⟨m, hm, b, hchain, hb⟩ := ihs j hji hj
      refine ⟨m + 1, by omega, b, ?_, hb⟩
      rw [parent_chain_succ, ← hkey, get_account_by_key_getElem s hgood.1 j hj]
      exact hchain

/-- C4: in every store reachable from the empty store, following
`parent_key` links from any stored account reaches a root (empty
`parent_key`) in fewer hops than there are accounts, and no account is
its own parent. -/
theorem c4_reachable_acyclic (s : List Account) (hs : Reachable s) :
    ∀ a ∈ s, (∃ m, m < s.length ∧ ∃ b, parent_chain s m a = some b ∧ b.parent_key = "") ∧
      a.parent_key ≠ a.account_key := by
  have hgood := reachable_good s hs
  intro a ha
  rcases List.mem_iff_getElem.1 ha with ⟨i, hi, rfl⟩
  constructor
  · obtain ⟨m, hm, b, hchain, hb⟩ := good_store_chain s hgood i hi
    exact ⟨m, by omega, b, hchain, hb⟩
  · rcases hgood.2.2 i hi with hroot | ⟨j, hj, hji, hkey⟩
    · rw [hroot]
      intro hcontra
      exact hgood.2.1 s[i] (List.getElem_mem hi) hcontra.symm
    · rw [← hkey]
      intro hcontra
      have hsk : store_keys s = s.map (fun a => a.account_key) := rfl
      have hj' : j < (store_keys s).length := by rw [hsk]; simpa using hj
      have hi' : i < (store_keys s).length := by rw [hsk]; simpa using hi
      have hgetj : (store_keys s)[j] = s[j].account_key := by simp [store_keys]
      have hgeti : (store_keys s)[i] = s[i].account_key := by simp [store_keys]
      have heq : (store_keys s)[j] = (store_keys s)[i] := by rw [hgetj, hgeti, hcontra]
      have hji' : j = i := (List.Nodup.getElem_inj_iff hgood.1).1 heq
      omega

/-- The two-account store `[acctA, acctB]` is reachable: two successful
creations starting from the empty store. -/
lemma reachable_pair : Reachable [acctA, acctB] :=
  Reachable.create 1 (fun _ => 1) [acctA] "BANK" "Checking" "Assets:Cash:Checking" "AAAAA" ""
    "EUR" false {} [acctA, acctB] "BBBBB"
    (Reachable.create 1 (fun _ => 0) [] "ASSET" "Cash" "Assets:Cash" "" "" "EUR" false {}
      [acctA] "AAAAA" Reachable.nil rfl) rfl

/-- C4 witness: the reachable store `[acctA, acctB]` at the child row. -/
theorem c4_witness :
    (∃ m, m < ([acctA, acctB] : List Account).length ∧
      ∃ b, parent_chain [acctA, acctB] m acctB = some b ∧ b.parent_key = "") ∧
    acctB.parent_key ≠ acctB.account_key :=
  c4_reachable_acyclic [acctA, acctB] reachable_pair acctB (by decide)
